import Mathlib

/-
Verification of the PICO-8 sprite conversion pipeline
(sprite_extractor.py, png_to_pico8.py, png_extract_all_sprites.py):
nearest-palette color quantization, grid-based sprite extraction,
packing of variable-size sprites into the 128x128 sheet, and the
hexadecimal text encoding of the sheet.
-/

/-- An RGB triple; the scripts take PIL pixels as int triples. -/
abbrev RGB := Int × Int × Int

/-- The fixed 16-color palette, the list `PICO8_PALETTE` shared by all
three scripts. -/
def PICO8_PALETTE : List RGB :=
  [(0, 0, 0), (29, 43, 83), (126, 37, 83), (0, 135, 81),
   (171, 82, 54), (95, 87, 79), (194, 195, 199), (255, 241, 232),
   (255, 0, 77), (255, 163, 0), (255, 236, 39), (0, 228, 54),
   (41, 173, 255), (131, 118, 156), (255, 119, 168), (255, 204, 170)]

/-- Squared Euclidean distance in RGB space:
`sum((a - b) ** 2 for a, b in zip(rgb, palette_color))` applied to a
3-tuple pixel. -/
def distSq (a b : RGB) : Int :=
  (a.1 - b.1) ^ 2 + (a.2.1 - b.2.1) ^ 2 + (a.2.2 - b.2.2) ^ 2

/-- Comparison of a new distance against the running minimum;
`none` stands for the initial `float('inf')`, against which any
distance compares smaller. -/
def ltInf (d : Int) : Option Int → Bool
  | none => true
  | some m => decide (d < m)

/-- One iteration of the nearest-color loop: on entry `(i, palette_color)`
the running state `(min_distance, closest_color)` is replaced when
`distance < min_distance`; a tie keeps the earlier index. -/
def pickStep (f : RGB → Int) (st : Option Int × Nat) (ipc : Nat × RGB) :
    Option Int × Nat :=
  if ltInf (f ipc.2) st.1 then (some (f ipc.2), ipc.1) else st

/-- `rgb_to_pico8_color` from sprite_extractor.py: the loop
`for i, palette_color in enumerate(PICO8_PALETTE)` starting from
`(float('inf'), 0)`, returning `closest_color`. -/
def rgb_to_pico8_color (rgb : RGB) : Nat :=
  ((PICO8_PALETTE.enum).foldl (pickStep (distSq rgb)) (none, 0)).2

/-- Squared distance for a pixel given as a Python tuple of ints of any
length: `zip` truncates to the shorter of the pixel and the 3-entry
palette color, and `sum` accumulates from 0 on the left. -/
def distListSq (p : List Int) (pc : RGB) : Int :=
  ((p.zip [pc.1, pc.2.1, pc.2.2]).foldl (fun s ab => s + (ab.1 - ab.2) ^ 2) 0)

/-- The shared minimum-distance loop of `find_closest_pico8_color`
(png_to_pico8.py and png_extract_all_sprites.py), over a list pixel. -/
def closestLoop (p : List Int) : Nat :=
  ((PICO8_PALETTE.enum).foldl (pickStep (distListSq p)) (none, 0)).2

/-- `find_closest_pico8_color` from png_to_pico8.py /
png_extract_all_sprites.py: a length-4 tuple is RGBA; alpha 0 returns
palette index 0 at once, otherwise the alpha is stripped before the
minimum-distance loop. -/
def find_closest_pico8_color (p : List Int) : Nat :=
  if p.length = 4 then
    if p.getD 3 0 = 0 then 0
    else closestLoop (p.take 3)
  else closestLoop p

/-- A decoded RGB image (the result of `Image.open(...).convert('RGB')`):
width, height, and the per-pixel accessor `getpixel((x, y))`. -/
structure RGBImage where
  width : Nat
  height : Nat
  pixel : Nat → Nat → RGB

/-- A sprite record as built by `extract_sprites_from_png`: the dict
`{'id': ..., 'x': ..., 'y': ..., 'size': ..., 'data': ...}` with `data`
a size x size list of rows of palette indices. -/
structure PSprite where
  id : Nat
  x : Nat
  y : Nat
  size : Nat
  data : List (List Nat)

/-- The sprite built for grid cell `(x, y)`: pixel `(px, py)` of the crop
at `(x*S, y*S)` is source pixel `(x*S + px, y*S + py)`, quantized by
`rgb_to_pico8_color`; `i` is the id the caller assigns. -/
def gridSprite (img : RGBImage) (S i x y : Nat) : PSprite :=
  { id := i, x := x, y := y, size := S,
    data := (List.range S).map fun py =>
      (List.range S).map fun px =>
        rgb_to_pico8_color (img.pixel (x * S + px) (y * S + py)) }

/-- `extract_sprites_from_png` from sprite_extractor.py: `sprites_x =
width // sprite_size`, `sprites_y = height // sprite_size`, then the
row-major double loop appending one sprite per grid cell with
`'id': len(sprites)`. -/
def extract_sprites_from_png (img : RGBImage) (sprite_size : Nat) :
    List PSprite :=
  (List.range (img.height / sprite_size)).foldl
    (fun sprites y =>
      (List.range (img.width / sprite_size)).foldl
        (fun sprites x => sprites ++ [gridSprite img sprite_size sprites.length x y])
        sprites)
    []

/-- Write palette index `v` to `sprite_sheet[y][x]`. -/
def setPix (sheet : List (List Nat)) (y x v : Nat) : List (List Nat) :=
  sheet.set y ((sheet.getD y []).set x v)

/-- Read `data[y][x]` from a sprite's row list. -/
def dataPix (data : List (List Nat)) (y x : Nat) : Nat :=
  (data.getD y []).getD x 0

/-- The inner 8x8 copy loop
`for y in range(8): for x in range(8): sheet[sy+y][sx+x] = data[oy+y][ox+x]`. -/
def writeCell (sheet : List (List Nat)) (sy sx : Nat)
    (data : List (List Nat)) (oy ox : Nat) : List (List Nat) :=
  (List.range 8).foldl
    (fun sh y =>
      (List.range 8).foldl
        (fun sh2 x => setPix sh2 (sy + y) (sx + x) (dataPix data (oy + y) (ox + x)))
        sh)
    sheet

/-- The chunk loops of `sprites_to_pico8_format`: an `F x F` grid of 8x8
sub-blocks copied to `(sheet_y + chunk_y*8, sheet_x + chunk_x*8)`; with
`F = 1` this is exactly the direct 8x8 copy of the `size == 8` branch. -/
def writeChunks (sheet : List (List Nat)) (sy sx F : Nat)
    (data : List (List Nat)) : List (List Nat) :=
  (List.range F).foldl
    (fun sh cy =>
      (List.range F).foldl
        (fun sh2 cx => writeCell sh2 (sy + cy * 8) (sx + cx * 8) data (cy * 8) (cx * 8))
        sh)
    sheet

/-- Cursor advance of the `size == 16` branch: `sprite_index += 2` then
`if (sprite_index % grid_size) == 0: sprite_index += grid_size`. -/
def adv16 (idx : Nat) : Nat :=
  if (idx + 2) % 16 = 0 then idx + 2 + 16 else idx + 2

/-- One pass of the row-skip loop of the `size == 32` branch:
`if (sprite_index % 16) == 0: sprite_index += 16`. -/
def skipRow (idx : Nat) : Nat :=
  if idx % 16 = 0 then idx + 16 else idx

/-- Cursor advance of the `size == 32` branch: `sprite_index += 4` then
the row-skip conditional three times (`for _ in range(3)`). -/
def adv32 (idx : Nat) : Nat :=
  skipRow (skipRow (skipRow (idx + 4)))

/-- Result of one packing run: the 128x128 sheet, together with the
`(sprite_index, footprint)` at which each sprite was placed, in
placement order (bookkeeping for the placement facts the code prints). -/
structure PackResult where
  sheet : List (List Nat)
  placed : List (Nat × Nat)

/-- The main loop of `sprites_to_pico8_format`: break once
`sprite_index >= grid_size * grid_size`; an 8x8 sprite is copied at the
cursor cell and advances the cursor by 1; a 16x16 (resp. 32x32) sprite is
skipped when `sprite_index % 16 > 14` or `sprite_index // 16 > 14`
(resp. `> 12` for both), else its chunks are copied and the cursor
advances per `adv16` (resp. `adv32`); any other size falls through all
branches and is ignored. -/
def packLoop : List PSprite → Nat → List (List Nat) → List (Nat × Nat) → PackResult
  | [], _, sheet, placed => ⟨sheet, placed⟩
  | sp :: rest, idx, sheet, placed =>
    if 16 * 16 ≤ idx then ⟨sheet, placed⟩
    else if sp.size = 8 then
      packLoop rest (idx + 1)
        (writeChunks sheet ((idx / 16) * 8) ((idx % 16) * 8) 1 sp.data)
        (placed ++ [(idx, 1)])
    else if sp.size = 16 then
      if 14 < idx % 16 ∨ 14 < idx / 16 then packLoop rest idx sheet placed
      else
        packLoop rest (adv16 idx)
          (writeChunks sheet ((idx / 16) * 8) ((idx % 16) * 8) 2 sp.data)
          (placed ++ [(idx, 2)])
    else if sp.size = 32 then
      if 12 < idx % 16 ∨ 12 < idx / 16 then packLoop rest idx sheet placed
      else
        packLoop rest (adv32 idx)
          (writeChunks sheet ((idx / 16) * 8) ((idx % 16) * 8) 4 sp.data)
          (placed ++ [(idx, 4)])
    else packLoop rest idx sheet placed

/-- `sprites_to_pico8_format` from sprite_extractor.py: the sheet starts
as 128 rows of 128 zeros and the cursor at 0. -/
def sprites_to_pico8_format (sprites : List PSprite) : PackResult :=
  packLoop sprites 0 (List.replicate 128 (List.replicate 128 0)) []

/-- One lowercase hex digit, as Python writes it for values 0..15
(`hex(color)[2:]`, and each digit of an `%02x` byte). -/
def hexChar (n : Nat) : Char :=
  if n < 10 then Char.ofNat (48 + n) else Char.ofNat (87 + n)

/-- The two digits of `f"{b:02x}"` for a byte value below 256. -/
def hexPair (b : Nat) : List Char :=
  [hexChar (b / 16), hexChar (b % 16)]

/-- One sheet line of `save_pico8_sprite_data`: pixels are taken two at a
time (`for x in range(0, 128, 2)`), packed as `(pixel1 << 4) | pixel2`
and written as a two-digit hex byte; a trailing unpaired pixel would use
0 for `pixel2` (the `x + 1 < 128` guard). -/
def encodeRowPairs : List Nat → List Char
  | p1 :: p2 :: rest => hexPair ((p1 <<< 4) ||| p2) ++ encodeRowPairs rest
  | [p1] => hexPair ((p1 <<< 4) ||| 0)
  | [] => []

/-- The `__gfx__` lines written by `save_pico8_sprite_data`
(sprite_extractor.py): 128 lines, line `y` encoding row `y` of the sheet
two pixels per hex byte. -/
def save_pico8_sprite_data (sheet : List (List Nat)) : List String :=
  (List.range 128).map fun y => String.mk (encodeRowPairs (sheet.getD y []))

/-- `sprite_to_hex_string` (png_to_pico8.py / png_extract_all_sprites.py):
each row becomes the concatenation of `hex(color)[2:]` digits. -/
def sprite_to_hex_string (sprite_data : List (List Nat)) : List String :=
  sprite_data.map fun row => String.mk (row.map hexChar)

/-- A decoded RGBA image (`Image.open(...).convert('RGBA')`): `getpixel`
yields a length-4 int tuple, modelled as a list. -/
structure RGBAImage where
  width : Nat
  height : Nat
  pixel : Nat → Nat → List Int

/-- Models the external library call
`img.resize((16, 16), Image.NEAREST)`: destination pixel `(x, y)`
samples the source at the truncated center
`floor((x + 0.5) * width / 16)` (and likewise for `y`). -/
def resize16NEAREST (img : RGBAImage) : RGBAImage :=
  { width := 16, height := 16,
    pixel := fun x y =>
      img.pixel ((2 * x + 1) * img.width / 32) ((2 * y + 1) * img.height / 32) }

/-- The quantization double loop of `convert_png_to_pico8`: a 16x16 grid
of palette indices read row by row from the (possibly resized) image. -/
def quantize16 (img : RGBAImage) : List (List Nat) :=
  (List.range 16).map fun y =>
    (List.range 16).map fun x => find_closest_pico8_color (img.pixel x y)

/-- `convert_png_to_pico8` from png_to_pico8.py: an image whose size is
not exactly (16, 16) is resized (with a warning only) to 16x16 with
nearest-neighbor sampling before quantization. -/
def convert_png_to_pico8 (img : RGBAImage) : List (List Nat) :=
  if img.width = 16 ∧ img.height = 16 then quantize16 img
  else quantize16 (resize16NEAREST img)

/-- The four 8x8 destination slots used by `generate_gfx_output`
(png_extract_all_sprites.py) for 16x16 sprite number `index`:
top-left `index*2`, top-right `index*2 + 1`, bottom-left `index*2 + 16`,
bottom-right `index*2 + 17`; a slot id `s` addresses sheet cell
`(s % 16, s // 16)`. -/
def quadrantSlots (index : Nat) : List Nat :=
  [index * 2, index * 2 + 1, index * 2 + 16, index * 2 + 17]

/-- Two placements `(cursor, F)` write to a common destination 8x8 cell
iff their footprints, the cell rectangles
`[c % 16, c % 16 + F) x [c / 16, c / 16 + F)`, intersect. -/
def footOverlap (p q : Nat × Nat) : Prop :=
  p.1 % 16 < q.1 % 16 + q.2 ∧ q.1 % 16 < p.1 % 16 + p.2 ∧
  p.1 / 16 < q.1 / 16 + q.2 ∧ q.1 / 16 < p.1 / 16 + p.2

instance (p q : Nat × Nat) : Decidable (footOverlap p q) := by
  unfold footOverlap; infer_instance

/-- Cursor alignment kept by a run in which every sprite has footprint
`F`: the cursor stays a multiple of `F` that is at most `16 - F` cells
into its `F`-row band of `16 * F` slots. -/
def packInv (F c : Nat) : Prop := c % (16 * F) + F ≤ 16 ∧ c % F = 0

/-- A placement `q` lies entirely before cursor `c`: its footprint rows
end at or above the cursor row, or it sits in rows at or above the cursor
row and its footprint columns end at or left of the cursor column. -/
def placedBefore (c : Nat) (q : Nat × Nat) : Prop :=
  q.1 / 16 + q.2 ≤ c / 16 ∨ (q.1 / 16 ≤ c / 16 ∧ q.1 % 16 + q.2 ≤ c % 16)

/-- A solid-color square sprite of the given size, used as a concrete
test input. -/
def solidSprite (size color : Nat) : PSprite :=
  { id := 0, x := 0, y := 0, size := size,
    data := List.replicate size (List.replicate size color) }

/-- One 32x32 sprite followed by thirteen 8x8 sprites: a mixed-size
input to the packer. -/
def mixedList : List PSprite :=
  solidSprite 32 1 :: List.replicate 13 (solidSprite 8 2)

/-- One 32x32 sprite followed by one 8x8 sprite. -/
def c2List : List PSprite := [solidSprite 32 1, solidSprite 8 2]

/-- A 16x16 image every pixel of which is palette color 8 = (255, 0, 77). -/
def solidRed16 : RGBImage := ⟨16, 16, fun _ _ => (255, 0, 77)⟩

/-- The sheet produced by extracting `solidRed16` at cell size 16 and
packing the result. -/
def c3Sheet : List (List Nat) :=
  (sprites_to_pico8_format (extract_sprites_from_png solidRed16 16)).sheet

/-- The `__gfx__` lines of that sheet. -/
def c3Lines : List String := save_pico8_sprite_data c3Sheet

/- Theorems. -/

set_option maxHeartbeats 4000000 in
set_option maxRecDepth 8000 in
/-- C3: running the full pipeline (extract, then pack, then encode) on a
solid 16x16 image whose every pixel is palette color 8 = (255, 0, 77),
with cell size 16, yields a sheet whose first 16 text lines each begin
with 16 copies of the hex digit 8 (the top-left 2x2-cell block at
cellX = 0, cellY = 0) and whose remaining 240 cells are all palette
index 0. -/
theorem c3_roundtrip_solid :
    (∀ y < 16, (c3Lines.getD y "").take 16
      = String.mk (List.replicate 16 '8')) ∧
    (∀ cx < 16, ∀ cy < 16, ¬ (cx < 2 ∧ cy < 2) →
      ∀ px < 8, ∀ py < 8,
        (c3Sheet.getD (cy * 8 + py) []).getD (cx * 8 + px) 0 = 0) := by
  decide

/-- C8: for every pixel sample carrying an alpha channel with alpha 0,
the quantizer returns palette index 0 unconditionally, regardless of the
RGB values. -/
theorem c8_transparency_collapse (r g b : Int) :
    find_closest_pico8_color [r, g, b, 0] = 0 := rfl

/-- C2 counterexample: packing one 32x32 sprite followed by one 8x8
sprite places the 32x32 sprite at cursor 0 with footprint 4 and the 8x8
sprite at cursor 4, which is cell (4, 0) — not cell (0, 4) = cursor 64
as the claim states: no full rows are reserved, because the row-skip
loop only fires when the horizontal advance lands exactly on a row
boundary. -/
theorem c2_counterexample :
    (sprites_to_pico8_format c2List).placed = [(0, 4), (4, 1)] ∧
    (4 % 16 = 4 ∧ 4 / 16 = 0) ∧ ¬ (4 % 16 = 0 ∧ 4 / 16 = 4) := by
  decide

/-- C2 amended: after placing a sprite of footprint F > 1 the cursor
advances by F cells and skips extra rows only when that advance lands
exactly on a 16-cell row boundary; in particular packing one 32x32
sprite followed by one 8x8 sprite (any pixel data) puts the 32x32 sprite
at cells (0,0)..(3,3) and the 8x8 sprite at cell (4, 0), i.e. cursor 4. -/
theorem c2_amended (d1 d2 : List (List Nat)) :
    (sprites_to_pico8_format
      [⟨0, 0, 0, 32, d1⟩, ⟨1, 0, 0, 8, d2⟩]).placed = [(0, 4), (4, 1)] := rfl

/-- Every placement recorded by the packing loop with footprint above 1
passed the fit check of its branch, so its footprint stays inside the
16x16 cell grid. -/
theorem packLoop_placed_bounds :
    ∀ (l : List PSprite) (c : Nat) (sheet : List (List Nat))
      (placed : List (Nat × Nat)),
      (∀ q ∈ placed, 1 < q.2 → q.1 % 16 + q.2 ≤ 16 ∧ q.1 / 16 + q.2 ≤ 16) →
      ∀ q ∈ (packLoop l c sheet placed).placed, 1 < q.2 →
        q.1 % 16 + q.2 ≤ 16 ∧ q.1 / 16 + q.2 ≤ 16 := by
  intro l
  induction l with
  | nil => intro c sheet placed h q hq; exact h q hq
  | cons sp t ih =>
    intro c sheet placed h
    simp only [packLoop]
    split
    · exact h
    · next hc =>
      split
      · apply ih
        intro q hq
        rcases List.mem_append.mp hq with hq | hq
        · exact h q hq
        · simp only [List.mem_singleton] at hq
          subst hq
          intro h1
          omega
      · split
        · split
          · exact ih _ _ _ h
          · next hfit =>
            apply ih
            intro q hq
            rcases List.mem_append.mp hq with hq | hq
            · exact h q hq
            · simp only [List.mem_singleton] at hq
              subst hq
              intro _
              constructor <;> omega
        · split
          · split
            · exact ih _ _ _ h
            · next hfit =>
              apply ih
              intro q hq
              rcases List.mem_append.mp hq with hq | hq
              · exact h q hq
              · simp only [List.mem_singleton] at hq
                subst hq
                intro _
                constructor <;> omega
          · exact ih _ _ _ h

/-- C5: in every input sequence, a placed sprite with footprint F > 1
satisfies cellX + F <= 16 and cellY + F <= 16, so no multi-cell sprite
extends past the right edge of its 16-cell row or past the bottom of the
grid, and none is split across the row wrap. -/
theorem c5_row_containment (l : List PSprite) (q : Nat × Nat)
    (hq : q ∈ (sprites_to_pico8_format l).placed) (hF : 1 < q.2) :
    q.1 % 16 + q.2 ≤ 16 ∧ q.1 / 16 + q.2 ≤ 16 :=
  packLoop_placed_bounds l 0 _ [] (by simp) q hq hF

/-- C5 witness: packing a single 16x16 sprite records the placement
(0, 2), whose footprint fits the grid. -/
theorem c5_row_containment_witness :
    (0 : Nat) % 16 + 2 ≤ 16 ∧ (0 : Nat) / 16 + 2 ≤ 16 :=
  c5_row_containment [solidSprite 16 1] (0, 2) (by decide) (by decide)

/-- The chosen index of the minimum-distance fold stays below 16 as long
as it starts below 16 and every enumerated index is below 16. -/
theorem pickStep_foldl_snd_lt (f : RGB → Int) :
    ∀ (l : List (Nat × RGB)) (st : Option Int × Nat),
      (∀ ip ∈ l, ip.1 < 16) → st.2 < 16 →
      (l.foldl (pickStep f) st).2 < 16 := by
  intro l
  induction l with
  | nil => intro st _ h; exact h
  | cons kp t ih =>
    intro st hall hst
    rw [List.foldl_cons]
    apply ih _ (fun ip hip => hall ip (List.mem_cons_of_mem _ hip))
    unfold pickStep
    split
    · exact hall kp (List.mem_cons_self _ _)
    · exact hst

/-- The quantizer of sprite_extractor.py always returns a palette index. -/
theorem rgb_to_pico8_color_lt_16 (rgb : RGB) : rgb_to_pico8_color rgb < 16 :=
  pickStep_foldl_snd_lt _ _ _ (by decide) (by decide)

/-- The shared minimum-distance loop always returns a palette index. -/
theorem closestLoop_lt_16 (p : List Int) : closestLoop p < 16 :=
  pickStep_foldl_snd_lt _ _ _ (by decide) (by decide)

/-- The quantizer of png_to_pico8.py always returns a palette index. -/
theorem find_closest_lt_16 (p : List Int) : find_closest_pico8_color p < 16 := by
  unfold find_closest_pico8_color
  split
  · split
    · omega
    · exact closestLoop_lt_16 _
  · exact closestLoop_lt_16 _

/-- Running the strict-improvement fold from an already chosen candidate
of value `d` at index `c`: the result is the first-encountered strict
minimum over the whole sequence, provided the remaining indices lie
ahead of `c` and are strictly increasing. -/
theorem pickStep_fold (f : RGB → Int) :
    ∀ (l : List (Nat × RGB)) (d : Int) (c : Nat),
      (∀ ip ∈ l, c < ip.1) → l.Pairwise (fun a b => a.1 < b.1) →
      ∃ d2 c2, l.foldl (pickStep f) (some d, c) = (some d2, c2) ∧ d2 ≤ d ∧
        ((d2 = d ∧ c2 = c) ∨ ∃ ip ∈ l, c2 = ip.1 ∧ d2 = f ip.2 ∧ d2 < d) ∧
        (∀ ip ∈ l, d2 ≤ f ip.2) ∧
        (∀ ip ∈ l, ip.1 < c2 → d2 < f ip.2) := by
  intro l
  induction l with
  | nil =>
    intro d c _ _
    exact ⟨d, c, rfl, le_refl d, Or.inl ⟨rfl, rfl⟩, by simp, by simp⟩
  | cons kp t ih =>
    intro d c hahead hpw
    have hhd := (List.pairwise_cons.mp hpw).1
    have hpwt := (List.pairwise_cons.mp hpw).2
    by_cases hlt : f kp.2 < d
    · have hstep : pickStep f (some d, c) kp = (some (f kp.2), kp.1) := by
        simp [pickStep, ltInf, hlt]
      rw [List.foldl_cons, hstep]
      obtain ⟨d2, c2, heq, hle, hdisj, hmin, hstrict⟩ :=
        ih (f kp.2) kp.1 hhd hpwt
      refine ⟨d2, c2, heq, by omega, ?_, ?_, ?_⟩
      · right
        rcases hdisj with ⟨hd2, hc2⟩ | ⟨ip, hip, hc2, hd2, hlt2⟩
        · exact ⟨kp, List.mem_cons_self _ _, hc2, hd2, by omega⟩
        · exact ⟨ip, List.mem_cons_of_mem _ hip, hc2, hd2, by omega⟩
      · intro ip hip
        rcases List.mem_cons.mp hip with h0 | h0
        · subst h0; exact hle
        · exact hmin ip h0
      · intro ip hip hlt2
        rcases List.mem_cons.mp hip with h0 | h0
        · subst h0
          rcases hdisj with ⟨hd2, hc2⟩ | ⟨ip2, hip2, hc2, hd2, hlt3⟩
          · omega
          · omega
        · exact hstrict ip h0 hlt2
    · have hstep : pickStep f (some d, c) kp = (some d, c) := by
        simp [pickStep, ltInf, hlt]
      rw [List.foldl_cons, hstep]
      obtain ⟨d2, c2, heq, hle, hdisj, hmin, hstrict⟩ :=
        ih d c (fun ip hip => hahead ip (List.mem_cons_of_mem _ hip)) hpwt
      refine ⟨d2, c2, heq, hle, ?_, ?_, ?_⟩
      · rcases hdisj with h0 | ⟨ip, hip, hc2, hd2, hlt2⟩
        · exact Or.inl h0
        · exact Or.inr ⟨ip, List.mem_cons_of_mem _ hip, hc2, hd2, hlt2⟩
      · intro ip hip
        rcases List.mem_cons.mp hip with h0 | h0
        · subst h0; omega
        · exact hmin ip h0
      · intro ip hip hlt2
        rcases List.mem_cons.mp hip with h0 | h0
        · have hk := hahead kp (List.mem_cons_self _ _)
          rw [h0] at hlt2 ⊢
          rcases hdisj with ⟨hd2, hc2⟩ | ⟨ip2, hip2, hc2, hd2, hlt3⟩
          · omega
          · omega
        · exact hstrict ip h0 hlt2

/-- The full minimum-distance loop from the initial state
`(float('inf'), 0)`: on a nonempty strictly-index-increasing enumeration
it selects the first-encountered minimum. -/
theorem pickLoop_spec (f : RGB → Int) (l : List (Nat × RGB)) (hne : l ≠ [])
    (hpw : l.Pairwise (fun a b => a.1 < b.1)) :
    ∃ d2 c2, l.foldl (pickStep f) (none, 0) = (some d2, c2) ∧
      (∃ ip ∈ l, c2 = ip.1 ∧ d2 = f ip.2) ∧
      (∀ ip ∈ l, d2 ≤ f ip.2) ∧
      (∀ ip ∈ l, ip.1 < c2 → d2 < f ip.2) := by
  match l, hne with
  | kp :: t, _ =>
    have hhd := (List.pairwise_cons.mp hpw).1
    have hpwt := (List.pairwise_cons.mp hpw).2
    have hstep : pickStep f (none, 0) kp = (some (f kp.2), kp.1) := by
      simp [pickStep, ltInf]
    rw [List.foldl_cons, hstep]
    obtain ⟨d2, c2, heq, hle, hdisj, hmin, hstrict⟩ :=
      pickStep_fold f t (f kp.2) kp.1 hhd hpwt
    refine ⟨d2, c2, heq, ?_, ?_, ?_⟩
    · rcases hdisj with ⟨hd2, hc2⟩ | ⟨ip, hip, hc2, hd2, hlt2⟩
      · exact ⟨kp, List.mem_cons_self _ _, hc2, hd2⟩
      · exact ⟨ip, List.mem_cons_of_mem _ hip, hc2, hd2⟩
    · intro ip hip
      rcases List.mem_cons.mp hip with h0 | h0
      · subst h0; exact hle
      · exact hmin ip h0
    · intro ip hip hlt2
      rcases List.mem_cons.mp hip with h0 | h0
      · subst h0
        rcases hdisj with ⟨hd2, hc2⟩ | ⟨ip2, hip2, hc2, hd2, hlt3⟩
        · omega
        · omega
      · exact hstrict ip h0 hlt2

/-- C7: for every RGB triple in [0,255]^3, the quantizer returns the
index of the palette entry at minimum squared Euclidean distance,
resolving ties by the first-encountered (lowest) palette index; it is a
total pure function, so two calls on the same input yield the same index
in [0, 15]. -/
theorem c7_quantizer_argmin (r g b : Int)
    (hr : 0 ≤ r ∧ r ≤ 255) (hg : 0 ≤ g ∧ g ≤ 255) (hb : 0 ≤ b ∧ b ≤ 255) :
    rgb_to_pico8_color (r, g, b) < 16 ∧
    (∀ i < 16,
      distSq (r, g, b) (PICO8_PALETTE.getD (rgb_to_pico8_color (r, g, b)) (0, 0, 0)) ≤
        distSq (r, g, b) (PICO8_PALETTE.getD i (0, 0, 0))) ∧
    (∀ i < rgb_to_pico8_color (r, g, b),
      distSq (r, g, b) (PICO8_PALETTE.getD (rgb_to_pico8_color (r, g, b)) (0, 0, 0)) <
        distSq (r, g, b) (PICO8_PALETTE.getD i (0, 0, 0))) ∧
    rgb_to_pico8_color (r, g, b) = rgb_to_pico8_color (r, g, b) := by
  obtain ⟨d2, c2, heq, hwin, hmin, hstrict⟩ :=
    pickLoop_spec (distSq (r, g, b)) PICO8_PALETTE.enum (by decide) (by decide)
  have hres : rgb_to_pico8_color (r, g, b) = c2 := by
    unfold rgb_to_pico8_color
    rw [heq]
  have hlt16 : ∀ ip ∈ PICO8_PALETTE.enum, ip.1 < 16 := by decide
  have hget : ∀ ip ∈ PICO8_PALETTE.enum,
      PICO8_PALETTE.getD ip.1 (0, 0, 0) = ip.2 := by decide
  have hmem : ∀ i < 16,
      (i, PICO8_PALETTE.getD i (0, 0, 0)) ∈ PICO8_PALETTE.enum := by decide
  obtain ⟨ip, hip, hc2, hd2⟩ := hwin
  have hc2lt : c2 < 16 := hc2 ▸ hlt16 ip hip
  have hd2get : distSq (r, g, b) (PICO8_PALETTE.getD c2 (0, 0, 0)) = d2 := by
    rw [hc2, hget ip hip, hd2]
  refine ⟨by omega, ?_, ?_, rfl⟩
  · intro i hi
    rw [hres, hd2get]
    exact hmin (i, PICO8_PALETTE.getD i (0, 0, 0)) (hmem i hi)
  · intro i hi
    rw [hres] at hi
    rw [hres, hd2get]
    exact hstrict (i, PICO8_PALETTE.getD i (0, 0, 0)) (hmem i (by omega)) hi

/-- For palette indices, packing two values into one byte with
`(pixel1 << 4) | pixel2` is base-16 positional arithmetic. -/
theorem shiftl_or_eq : ∀ p1 < 16, ∀ p2 < 16,
    (p1 <<< 4) ||| p2 = p1 * 16 + p2 := by decide

/-- The two digits of the packed byte are exactly the digits of the two
pixels. -/
theorem hexPair_eq (p1 p2 : Nat) (h1 : p1 < 16) (h2 : p2 < 16) :
    hexPair ((p1 <<< 4) ||| p2) = [hexChar p1, hexChar p2] := by
  rw [shiftl_or_eq p1 h1 p2 h2]
  have hx : (p1 * 16 + p2) / 16 = p1 := by omega
  have hy : (p1 * 16 + p2) % 16 = p2 := by omega
  simp [hexPair, hx, hy]

/-- On an even-length row of palette indices, the two-pixels-per-byte
encoding spells out exactly one hex digit per pixel. -/
theorem encodeRowPairs_eq_digits :
    ∀ (n : Nat) (row : List Nat), row.length ≤ n → (∀ v ∈ row, v < 16) →
      row.length % 2 = 0 → encodeRowPairs row = row.map hexChar := by
  intro n
  induction n with
  | zero =>
    intro row hlen _ _
    have h0 : row = [] := List.eq_nil_of_length_eq_zero (by omega)
    subst h0; rfl
  | succ n ih =>
    intro row hlen hv hpar
    match row with
    | [] => rfl
    | [p] => simp at hpar
    | p1 :: p2 :: rest =>
      have h1 : p1 < 16 := hv p1 (by simp)
      have h2 : p2 < 16 := hv p2 (by simp)
      have hlen2 : rest.length ≤ n := by
        simp only [List.length_cons] at hlen; omega
      have hpar2 : rest.length % 2 = 0 := by
        simp only [List.length_cons] at hpar; omega
      rw [encodeRowPairs, hexPair_eq p1 p2 h1 h2,
        ih rest hlen2 (fun v hv2 => hv v (by simp [hv2])) hpar2]
      rfl

/-- C9: for every 128x128 sheet of palette indices in [0,15], the
encoder that packs two pixels per hex byte (save_pico8_sprite_data)
produces, line for line, exactly the text produced by formatting one
lowercase hex digit per pixel (sprite_to_hex_string). -/
theorem c9_encoding_equivalence (sheet : List (List Nat))
    (hlen : sheet.length = 128)
    (hrow : ∀ row ∈ sheet, row.length = 128 ∧ ∀ v ∈ row, v < 16) :
    save_pico8_sprite_data sheet = sprite_to_hex_string sheet := by
  unfold save_pico8_sprite_data sprite_to_hex_string
  apply List.ext_getElem
  · simp [hlen]
  · intro i h1 h2
    simp only [List.getElem_map, List.getElem_range]
    have hi : i < sheet.length := by simpa using h2
    have hgd : sheet.getD i [] = sheet[i] := List.getD_eq_getElem sheet [] hi
    obtain ⟨hrl, hrv⟩ := hrow sheet[i] (sheet.getElem_mem hi)
    rw [hgd, encodeRowPairs_eq_digits 128 sheet[i] (by omega) hrv (by omega)]

/-- C9 witness: the two encoders agree on the all-zero 128x128 sheet. -/
theorem c9_encoding_equivalence_witness :
    save_pico8_sprite_data (List.replicate 128 (List.replicate 128 0)) =
      sprite_to_hex_string (List.replicate 128 (List.replicate 128 0)) :=
  c9_encoding_equivalence _ (by simp) (by
    intro row hr
    rw [List.eq_of_mem_replicate hr]
    exact ⟨by simp, fun v hv => by rw [List.eq_of_mem_replicate hv]; omega⟩)

/-- Unfolding of the inner column loop of `extract_sprites_from_png`:
it appends one sprite per column, ids continuing from the length of the
accumulator. -/
theorem extract_inner_eq (img : RGBImage) (S y : Nat) :
    ∀ (n : Nat) (init : List PSprite),
      (List.range n).foldl
        (fun sprites x => sprites ++ [gridSprite img S sprites.length x y]) init =
      init ++ (List.range n).map (fun x => gridSprite img S (init.length + x) x y) := by
  intro n
  induction n with
  | zero => intro init; simp
  | succ n ih =>
    intro init
    rw [List.range_succ, List.foldl_append, ih init]
    simp [List.range_succ, List.append_assoc]

/-- Length of the row-major sprite grid. -/
theorem length_bind_map_range (cols : Nat) (f : Nat → Nat → PSprite) :
    ∀ m, ((List.range m).flatMap fun y => (List.range cols).map (f y)).length
      = m * cols := by
  intro m
  induction m with
  | zero => simp
  | succ m ih =>
    rw [List.range_succ, List.flatMap_append]
    simp [ih, Nat.succ_mul]

/-- Unfolding of the outer row loop of `extract_sprites_from_png`. -/
theorem extract_outer_eq (img : RGBImage) (S : Nat) :
    ∀ (m : Nat) (init : List PSprite),
      (List.range m).foldl
        (fun sprites y => (List.range (img.width / S)).foldl
          (fun sprites x => sprites ++ [gridSprite img S sprites.length x y])
          sprites) init =
      init ++ (List.range m).flatMap (fun y => (List.range (img.width / S)).map
        (fun x => gridSprite img S (init.length + (y * (img.width / S) + x)) x y)) := by
  intro m
  induction m with
  | zero => intro init; simp
  | succ m ih =>
    intro init
    rw [List.range_succ, List.foldl_append, ih init, List.foldl_cons,
      List.foldl_nil, extract_inner_eq, List.flatMap_append,
      List.flatMap_cons, List.flatMap_nil, List.append_nil, List.append_assoc]
    congr 1
    congr 1
    apply List.map_congr_left
    intro x hx
    rw [List.length_append, length_bind_map_range, Nat.add_assoc]

/-- C6: extraction emits exactly floor(W/S) * floor(H/S) sprites, in
row-major order (gridY outer, gridX inner), each an SxS grid of palette
indices in [0,15], carrying id = gridY * cols + gridX and position
(gridX, gridY); an image smaller than one cell in either dimension gives
zero sprites. -/
theorem c6_grid_coverage (img : RGBImage) (S : Nat)
    (hS : S = 8 ∨ S = 16 ∨ S = 32) :
    extract_sprites_from_png img S =
      ((List.range (img.height / S)).flatMap fun y =>
        (List.range (img.width / S)).map fun x =>
          gridSprite img S (y * (img.width / S) + x) x y) ∧
    (extract_sprites_from_png img S).length
      = (img.width / S) * (img.height / S) ∧
    (∀ sp ∈ extract_sprites_from_png img S,
      sp.data.length = S ∧ ∀ row ∈ sp.data, row.length = S ∧ ∀ v ∈ row, v < 16) ∧
    (img.width < S ∨ img.height < S → extract_sprites_from_png img S = []) := by
  have hmain : extract_sprites_from_png img S =
      ((List.range (img.height / S)).flatMap fun y =>
        (List.range (img.width / S)).map fun x =>
          gridSprite img S (y * (img.width / S) + x) x y) := by
    unfold extract_sprites_from_png
    rw [extract_outer_eq]
    simp
  refine ⟨hmain, ?_, ?_, ?_⟩
  · rw [hmain, length_bind_map_range, Nat.mul_comm]
  · intro sp hsp
    rw [hmain] at hsp
    simp only [List.mem_flatMap, List.mem_map, List.mem_range] at hsp
    obtain ⟨y, hy, x, hx, hsp⟩ := hsp
    subst hsp
    simp only [gridSprite, List.length_map, List.length_range, true_and]
    intro row hrow
    simp only [List.mem_map, List.mem_range] at hrow
    obtain ⟨py, hpy, hrow⟩ := hrow
    subst hrow
    simp only [List.length_map, List.length_range, true_and]
    intro v hv
    simp only [List.mem_map, List.mem_range] at hv
    obtain ⟨px, hpx, hv⟩ := hv
    rw [← hv]
    exact rgb_to_pico8_color_lt_16 _
  · intro h
    rw [hmain]
    rcases h with h | h
    · rw [Nat.div_eq_of_lt h]
      simp
    · rw [Nat.div_eq_of_lt h]
      simp

/-- C6 witness: an 8x8 one-pixel-color image at cell size 8. -/
theorem c6_grid_coverage_witness :
    extract_sprites_from_png ⟨8, 8, fun _ _ => (0, 0, 0)⟩ 8 =
      ((List.range (8 / 8)).flatMap fun y =>
        (List.range (8 / 8)).map fun x =>
          gridSprite ⟨8, 8, fun _ _ => (0, 0, 0)⟩ 8 (y * (8 / 8) + x) x y) ∧
    (extract_sprites_from_png ⟨8, 8, fun _ _ => (0, 0, 0)⟩ 8).length
      = (8 / 8) * (8 / 8) ∧
    (∀ sp ∈ extract_sprites_from_png ⟨8, 8, fun _ _ => (0, 0, 0)⟩ 8,
      sp.data.length = 8 ∧ ∀ row ∈ sp.data, row.length = 8 ∧ ∀ v ∈ row, v < 16) ∧
    ((8 : Nat) < 8 ∨ (8 : Nat) < 8 →
      extract_sprites_from_png ⟨8, 8, fun _ _ => (0, 0, 0)⟩ 8 = []) :=
  c6_grid_coverage ⟨8, 8, fun _ _ => (0, 0, 0)⟩ 8 (Or.inl rfl)

/-- C10: in the 16x16-only converter, an input image whose size is not
exactly 16x16 is not rejected: it is silently resized to 16x16 with
nearest-neighbor sampling before quantization, so the converter produces
a 16x16 index grid for an input of any size. -/
theorem c10_silent_resize (img : RGBAImage)
    (h : ¬ (img.width = 16 ∧ img.height = 16)) :
    convert_png_to_pico8 img = quantize16 (resize16NEAREST img) ∧
    (convert_png_to_pico8 img).length = 16 ∧
    ∀ row ∈ convert_png_to_pico8 img, row.length = 16 ∧ ∀ v ∈ row, v < 16 := by
  have hconv : convert_png_to_pico8 img = quantize16 (resize16NEAREST img) := by
    unfold convert_png_to_pico8
    rw [if_neg h]
  refine ⟨hconv, ?_, ?_⟩
  · rw [hconv]
    simp [quantize16]
  · intro row hrow
    rw [hconv] at hrow
    simp only [quantize16, List.mem_map, List.mem_range] at hrow
    obtain ⟨y, hy, hrow⟩ := hrow
    subst hrow
    refine ⟨by simp, ?_⟩
    intro v hv
    simp only [List.mem_map, List.mem_range] at hv
    obtain ⟨x, hx, hv⟩ := hv
    rw [← hv]
    exact find_closest_lt_16 _

/-- C10 witness: an 8x8 all-black opaque image, which is not 16x16. -/
theorem c10_silent_resize_witness :
    convert_png_to_pico8 ⟨8, 8, fun _ _ => [0, 0, 0, 255]⟩ =
      quantize16 (resize16NEAREST ⟨8, 8, fun _ _ => [0, 0, 0, 255]⟩) ∧
    (convert_png_to_pico8 ⟨8, 8, fun _ _ => [0, 0, 0, 255]⟩).length = 16 ∧
    ∀ row ∈ convert_png_to_pico8 ⟨8, 8, fun _ _ => [0, 0, 0, 255]⟩,
      row.length = 16 ∧ ∀ v ∈ row, v < 16 :=
  c10_silent_resize ⟨8, 8, fun _ _ => [0, 0, 0, 255]⟩ (by simp)

/-- With only 8x8 sprites in the input, the loop never consumes more
than the 256 - cursor sprites that still fit: the rest hit the capacity
break and leave the state untouched. -/
theorem packLoop_take_8 :
    ∀ (l : List PSprite) (c : Nat) (sheet : List (List Nat))
      (placed : List (Nat × Nat)),
      (∀ sp ∈ l, sp.size = 8) →
      packLoop l c sheet placed = packLoop (l.take (16 * 16 - c)) c sheet placed := by
  intro l
  induction l with
  | nil => intro c sheet placed _; rw [List.take_nil]
  | cons sp t ih =>
    intro c sheet placed hall
    by_cases hc : 16 * 16 ≤ c
    · have h0 : 16 * 16 - c = 0 := by omega
      rw [h0, List.take_zero]
      simp [packLoop, hc]
    · have h1 : 16 * 16 - c = (16 * 16 - (c + 1)) + 1 := by omega
      rw [h1, List.take_succ_cons]
      have hsp := hall sp (List.mem_cons_self _ _)
      simp only [packLoop, hsp, if_neg hc, reduceIte]
      exact ih (c + 1) _ _ (fun x hx => hall x (List.mem_cons_of_mem _ hx))

/-- With only 8x8 sprites, the placements are exactly the consecutive
cursor values from the starting cursor, one per sprite, capped at the
sheet capacity. -/
theorem packLoop_placed_8 :
    ∀ (l : List PSprite) (c : Nat) (sheet : List (List Nat))
      (placed : List (Nat × Nat)),
      (∀ sp ∈ l, sp.size = 8) →
      (packLoop l c sheet placed).placed
        = placed ++ (List.range' c (min l.length (16 * 16 - c))).map (fun k => (k, 1)) := by
  intro l
  induction l with
  | nil => intro c sheet placed _; simp [packLoop]
  | cons sp t ih =>
    intro c sheet placed hall
    by_cases hc : 16 * 16 ≤ c
    · have h0 : 16 * 16 - c = 0 := by omega
      simp [packLoop, hc, h0]
    · have hsp := hall sp (List.mem_cons_self _ _)
      have hmin : min (sp :: t).length (16 * 16 - c)
          = min t.length (16 * 16 - (c + 1)) + 1 := by
        simp only [List.length_cons]
        omega
      rw [hmin, List.range'_succ, List.map_cons]
      simp only [packLoop, hsp, if_neg hc, reduceIte]
      rw [ih (c + 1) _ _ (fun x hx => hall x (List.mem_cons_of_mem _ hx))]
      simp

/-- C4: packing a sequence of 257 8x8 sprites places exactly the first
256 of them, in input order, one per cell of the 16x16 grid (cursor
values 0..255); every remaining sprite is dropped and the whole result
(sheet included) is what packing only the first 256 sprites produces. -/
theorem c4_capacity_exhaustion (l : List PSprite)
    (h8 : ∀ sp ∈ l, sp.size = 8) (hlen : l.length = 257) :
    (sprites_to_pico8_format l).placed = (List.range 256).map (fun k => (k, 1)) ∧
    sprites_to_pico8_format l = sprites_to_pico8_format (l.take 256) := by
  constructor
  · unfold sprites_to_pico8_format
    rw [packLoop_placed_8 l 0 _ [] h8, List.range_eq_range']
    simp [hlen]
  · unfold sprites_to_pico8_format
    rw [packLoop_take_8 l 0 _ [] h8]

/-- C4 witness: 257 solid 8x8 sprites. -/
theorem c4_capacity_exhaustion_witness :
    (sprites_to_pico8_format (List.replicate 257 (solidSprite 8 5))).placed
      = (List.range 256).map (fun k => (k, 1)) ∧
    sprites_to_pico8_format (List.replicate 257 (solidSprite 8 5))
      = sprites_to_pico8_format ((List.replicate 257 (solidSprite 8 5)).take 256) :=
  c4_capacity_exhaustion (List.replicate 257 (solidSprite 8 5))
    (fun sp hsp => by rw [List.eq_of_mem_replicate hsp]; rfl)
    (by rw [List.length_replicate])

/-- The three conditional row-skips after a 32x32 placement amount to:
skip three full rows when the horizontal advance landed exactly on a row
boundary, else nothing. -/
theorem adv32_eq (c : Nat) :
    adv32 c = if (c + 4) % 16 = 0 then c + 52 else c + 4 := by
  have h1 : ∀ d, d % 16 = 0 → skipRow d = d + 16 := fun d hd => if_pos hd
  have h2 : ∀ d, ¬ d % 16 = 0 → skipRow d = d := fun d hd => if_neg hd
  by_cases h : (c + 4) % 16 = 0
  · rw [adv32, h1 (c + 4) h, h1 (c + 4 + 16) (by omega),
      h1 (c + 4 + 16 + 16) (by omega), if_pos h]
  · rw [adv32, h2 (c + 4) h, h2 (c + 4) h, h2 (c + 4) h, if_neg h]

/-- Advancing after an 8x8 placement either moves one column right in
the same row or jumps to the start of the next row. -/
theorem adv8_cases (c : Nat) :
    (c + 1) / 16 = c / 16 ∧ (c + 1) % 16 = c % 16 + 1 ∨
    (c + 1) / 16 = c / 16 + 1 ∧ (c + 1) % 16 = 0 := by omega

/-- Under the footprint-2 alignment invariant, `adv16` keeps the
invariant and either moves two columns right in the same row or jumps to
the start of the row two rows below. -/
theorem adv16_cases (c : Nat) (h : packInv 2 c) :
    packInv 2 (adv16 c) ∧
    (adv16 c / 16 = c / 16 ∧ adv16 c % 16 = c % 16 + 2 ∨
     adv16 c / 16 = c / 16 + 2 ∧ adv16 c % 16 = 0) := by
  simp only [packInv] at *
  unfold adv16
  split
  · omega
  · omega

/-- Under the footprint-4 alignment invariant, `adv32` keeps the
invariant and either moves four columns right in the same row or jumps
to the start of the row four rows below. -/
theorem adv32_cases (c : Nat) (h : packInv 4 c) :
    packInv 4 (adv32 c) ∧
    (adv32 c / 16 = c / 16 ∧ adv32 c % 16 = c % 16 + 4 ∨
     adv32 c / 16 = c / 16 + 4 ∧ adv32 c % 16 = 0) := by
  rw [adv32_eq]
  simp only [packInv] at *
  split
  · omega
  · omega

/-- A placement lying entirely before the cursor cannot overlap a new
placement made at the cursor. -/
theorem before_not_overlap (c : Nat) (q : Nat × Nat) (h : placedBefore c q)
    (F : Nat) : ¬ footOverlap q (c, F) := by
  obtain ⟨qc, qF⟩ := q
  simp only [placedBefore, footOverlap] at *
  omega

/-- Being entirely before the cursor is preserved by a cursor advance of
either shape, for placements of the same footprint. -/
theorem before_step (c c2 F : Nat) (q : Nat × Nat) (hqF : q.2 = F)
    (h : placedBefore c q)
    (hstep : c2 / 16 = c / 16 ∧ c2 % 16 = c % 16 + F ∨
      c2 / 16 = c / 16 + F ∧ c2 % 16 = 0) :
    placedBefore c2 q := by
  obtain ⟨qc, qF⟩ := q
  have hqF2 : qF = F := hqF
  simp only [placedBefore] at *
  omega

/-- A placement made at the cursor lies entirely before the advanced
cursor. -/
theorem before_new (c c2 F : Nat)
    (hstep : c2 / 16 = c / 16 ∧ c2 % 16 = c % 16 + F ∨
      c2 / 16 = c / 16 + F ∧ c2 % 16 = 0) :
    placedBefore c2 (c, F) := by
  simp only [placedBefore]
  omega

/-- Homogeneous no-overlap invariant for the packing loop: if every
remaining sprite has the single size `s` of footprint `F`, the cursor is
`F`-aligned, and every placement so far has footprint `F`, lies before
the cursor and is pairwise non-overlapping, then the final placement
list is pairwise non-overlapping. -/
theorem pack_noOverlap_aux (s F : Nat)
    (hsF : s = 8 ∧ F = 1 ∨ s = 16 ∧ F = 2 ∨ s = 32 ∧ F = 4) :
    ∀ (l : List PSprite) (c : Nat) (sheet : List (List Nat))
      (placed : List (Nat × Nat)),
      (∀ sp ∈ l, sp.size = s) →
      packInv F c →
      (∀ q ∈ placed, q.2 = F ∧ placedBefore c q) →
      placed.Pairwise (fun p q => ¬ footOverlap p q) →
      ((packLoop l c sheet placed).placed).Pairwise
        (fun p q => ¬ footOverlap p q) := by
  intro l
  induction l with
  | nil => intro c sheet placed _ _ _ hpw; exact hpw
  | cons sp t ih =>
    intro c sheet placed hall hinv hbef hpw
    have hsp := hall sp (List.mem_cons_self _ _)
    have hallt : ∀ x ∈ t, x.size = s :=
      fun x hx => hall x (List.mem_cons_of_mem _ hx)
    by_cases hc : 16 * 16 ≤ c
    · simp only [packLoop, if_pos hc]
      exact hpw
    · have hnew : ∀ c2, (c2 / 16 = c / 16 ∧ c2 % 16 = c % 16 + F ∨
          c2 / 16 = c / 16 + F ∧ c2 % 16 = 0) → packInv F c2 →
          (packLoop t c2
            (writeChunks sheet ((c / 16) * 8) ((c % 16) * 8) F sp.data)
            (placed ++ [(c, F)])).placed.Pairwise
              (fun p q => ¬ footOverlap p q) := by
        intro c2 hstep hinv2
        apply ih c2 _ _ hallt hinv2
        · intro q hq
          rcases List.mem_append.mp hq with hq | hq
          · obtain ⟨hqF, hqB⟩ := hbef q hq
            exact ⟨hqF, before_step c c2 F q hqF hqB hstep⟩
          · simp only [List.mem_singleton] at hq
            subst hq
            exact ⟨rfl, before_new c c2 F hstep⟩
        · rw [List.pairwise_append]
          refine ⟨hpw, by simp, ?_⟩
          intro p hp q hq
          simp only [List.mem_singleton] at hq
          subst hq
          exact before_not_overlap c p (hbef p hp).2 F
      rcases hsF with ⟨hs, hF⟩ | ⟨hs, hF⟩ | ⟨hs, hF⟩ <;> subst hs <;> subst hF
      · simp only [packLoop, hsp, if_neg hc, reduceIte]
        exact hnew (c + 1) (adv8_cases c) (by simp only [packInv]; omega)
      · simp only [packLoop, hsp, if_neg hc, reduceIte]
        rw [if_neg (show ¬ (16 : Nat) = 8 by decide)]
        obtain ⟨hinv2, hstep⟩ := adv16_cases c hinv
        split
        · exact ih c _ _ hallt hinv hbef hpw
        · exact hnew (adv16 c) hstep hinv2
      · simp only [packLoop, hsp, if_neg hc, reduceIte]
        rw [if_neg (show ¬ (32 : Nat) = 8 by decide),
          if_neg (show ¬ (32 : Nat) = 16 by decide)]
        obtain ⟨hinv2, hstep⟩ := adv32_cases c hinv
        split
        · exact ih c _ _ hallt hinv hbef hpw
        · exact hnew (adv32 c) hstep hinv2

/-- C1 counterexample: the claim fails as stated. Packing the mixed
sequence of one 32x32 sprite followed by thirteen 8x8 sprites makes the
thirteenth 8x8 sprite land at cursor 16 = cell (0, 1), inside the 4x4
footprint of the 32x32 sprite placed at cell (0, 0): two sprites write
to the same destination cell. -/
theorem c1_no_overlap_counterexample :
    ¬ ((sprites_to_pico8_format mixedList).placed).Pairwise
        (fun p q => ¬ footOverlap p q) := by decide

/-- C1 amended: the no-overlap guarantee holds for homogeneous inputs
only. In the multi-size packer, any sequence in which all sprites share
one size (8, 16 or 32) yields pairwise non-overlapping placements; in
the 16x16-split producer, the quadrant slots 2N, 2N+1, 2N+16, 2N+17 of
the first 8 sprites (N < 8) are pairwise disjoint. (Mixed-size
sequences, and split-producer inputs with 9 or more sprites, can write
one destination cell from two sprites.) -/
theorem c1_no_overlap_amended :
    (∀ s F, (s = 8 ∧ F = 1 ∨ s = 16 ∧ F = 2 ∨ s = 32 ∧ F = 4) →
      ∀ l : List PSprite, (∀ sp ∈ l, sp.size = s) →
        ((sprites_to_pico8_format l).placed).Pairwise
          (fun p q => ¬ footOverlap p q)) ∧
    (∀ n < 9, ((List.range n).map quadrantSlots).Pairwise
      (fun a b => ∀ x ∈ a, x ∉ b)) := by
  constructor
  · intro s F hsF l hall
    unfold sprites_to_pico8_format
    have h1 : packInv F 0 := by
      rcases hsF with ⟨_, hF⟩ | ⟨_, hF⟩ | ⟨_, hF⟩ <;> subst hF <;> simp [packInv]
    exact pack_noOverlap_aux s F hsF l 0 _ [] hall h1
      (fun q hq => absurd hq (List.not_mem_nil q)) List.Pairwise.nil
  · decide

/-- C1 witness: a single 8x8 sprite (homogeneous size-8 input), and the
8-sprite split-producer layout. -/
theorem c1_no_overlap_amended_witness :
    ((sprites_to_pico8_format [solidSprite 8 3]).placed).Pairwise
      (fun p q => ¬ footOverlap p q) ∧
    ((List.range 8).map quadrantSlots).Pairwise
      (fun a b => ∀ x ∈ a, x ∉ b) :=
  ⟨c1_no_overlap_amended.1 8 1 (Or.inl ⟨rfl, rfl⟩) [solidSprite 8 3]
      (fun sp hsp => by simp only [List.mem_singleton] at hsp; subst hsp; rfl),
   c1_no_overlap_amended.2 8 (by omega)⟩

/-- C7 witness: the quantizer at the concrete triple (255, 0, 77), which
lies in [0,255]^3. -/
theorem c7_quantizer_argmin_witness :
    rgb_to_pico8_color (255, 0, 77) < 16 ∧
    (∀ i < 16,
      distSq (255, 0, 77) (PICO8_PALETTE.getD (rgb_to_pico8_color (255, 0, 77)) (0, 0, 0)) ≤
        distSq (255, 0, 77) (PICO8_PALETTE.getD i (0, 0, 0))) ∧
    (∀ i < rgb_to_pico8_color (255, 0, 77),
      distSq (255, 0, 77) (PICO8_PALETTE.getD (rgb_to_pico8_color (255, 0, 77)) (0, 0, 0)) <
        distSq (255, 0, 77) (PICO8_PALETTE.getD i (0, 0, 0))) ∧
    rgb_to_pico8_color (255, 0, 77) = rgb_to_pico8_color (255, 0, 77) :=
  c7_quantizer_argmin 255 0 77 (by decide) (by decide) (by decide)
